import Mathlib

/-!
# Verification of `GPXtoJSON/calculate_metrics.py`

Shallow embedding of the core subsystems of the GPX preprocessing pipeline:

* the dateline-split routine `fix_dateline_crossing` and the line-feature
  emission filter of `parse_gpx_to_geojson` (exact rational arithmetic: the
  routine only subtracts and compares longitudes);
* the cache partitioner `save_to_data_with_size_limit` (its chunking decision,
  feature flattening, slicing, regrouping, write loop and manifest);
* the spatial grid deduplicator `remove_duplicates_fast` and the grid area
  estimator `calculate_grid_area_fast`, over real numbers (the Python code
  computes with `math.sin`/`cos`/`atan2`, embedded here as the exact real
  functions).

Serialized byte sizes (`get_data_size`, i.e. `json.dumps` plus optional gzip)
and file-system write success are external to the repository's code and are
passed to the partitioner model as parameters.
-/

namespace ExploreWorld

/-! ## Dateline splitting (`fix_dateline_crossing`, lines 708-743)

Coordinates here are `[lon, lat]` pairs as in the GeoJSON code path; the
routine reads only index 0 (the longitude) of each coordinate and compares
differences against 180, so rationals embed the float arithmetic used on the
concrete inputs of interest exactly. -/

/-- A `[lon, lat]` coordinate as handled by `fix_dateline_crossing`. -/
abbrev LonLat := ℚ × ℚ

/-- The `for i in range(1, len(coordinates))` loop of `fix_dateline_crossing`:
`segs` is `line_segments`, `cur` is `current_segment` (never empty: it starts
as `[coordinates[0]]` and is reset to `[c]` at each crossing). -/
def fdcLoop : List LonLat → List (List LonLat) → List LonLat → List (List LonLat)
  | [], segs, cur => if 1 < cur.length then segs ++ [cur] else segs
  | c :: rest, segs, cur =>
    if 180 < |c.1 - (cur.getLastD (0, 0)).1| then
      fdcLoop rest (if 1 < cur.length then segs ++ [cur] else segs) [c]
    else
      fdcLoop rest segs (cur ++ [c])

/-- `fix_dateline_crossing(coordinates)`: split a coordinate list at every
consecutive pair whose longitudes differ by more than 180°; sub-2-point
segments are dropped, and if no segment survives the function returns
`[coordinates]` (the `line_segments if line_segments else [coordinates]`
fallback). -/
def fix_dateline_crossing (coords : List LonLat) : List (List LonLat) :=
  if coords.length < 2 then [coords]
  else
    match coords with
    | [] => [coords]
    | c :: rest =>
      let segs := fdcLoop rest [] [c]
      if segs = [] then [coords] else segs

/-- The line features emitted by `parse_gpx_to_geojson` for one track segment
(lines 791-808): if the segment has at least 2 points it is passed through
`fix_dateline_crossing` and every returned piece with at least 2 points
becomes one LineString feature. -/
def lineFeatureSegments (coords : List LonLat) : List (List LonLat) :=
  if 1 < coords.length then
    (fix_dateline_crossing coords).filter (fun s => 1 < s.length)
  else []

/-! ## Cache partitioner (`save_to_data_with_size_limit`, lines 295-599)

The dataset handed to the partitioning decision (line 359 onward, i.e. after
the optional optimization pass) is modelled as an ordered association list of
track types, each carrying its point features and line features.  Feature
payloads are opaque to the partitioner (it only moves them around), hence the
type parameter `F`.  The serialized size of the full dataset
(`get_data_size(data, use_gzip)`) and the success of each file write are
produced by external collaborators (`json`, `gzip`, the file system) and enter
the model as the parameters `totalSize` and `writeOk`/`singleWriteOk`. -/

/-- `CHUNK_CONFIG['min_chunks']`. -/
def minChunks : ℕ := 2

/-- `CHUNK_CONFIG['max_chunks']`. -/
def maxChunks : ℕ := 100

/-- The per-type `points`/`lines` feature lists of one track type (the
`features` arrays; the color/display/file metadata that is copied alongside
carries no features and is not modelled). -/
structure TrackData (F : Type) where
  points : List F
  lines : List F
deriving DecidableEq

/-- The `tracks` mapping of the dataset, an insertion-ordered dict. -/
structure Dataset (F : Type) where
  tracks : List (String × TrackData F)
deriving DecidableEq

/-- `feature_type` tag of a flattened feature (`'points'` / `'lines'`). -/
inductive FeatKind
  | points
  | lines
deriving DecidableEq

/-- One entry of `all_features`: `{'data': …, 'track_type': …,
'feature_type': …}` (lines 417-439). -/
structure TaggedFeature (F : Type) where
  data : F
  track_type : String
  feature_type : FeatKind
deriving DecidableEq

/-- Flatten a `tracks` mapping into `all_features` order: for each track type
in dict order, first its point features, then its line features. -/
def allFeaturesList {F : Type} (tracks : List (String × TrackData F)) :
    List (TaggedFeature F) :=
  tracks.bind fun p =>
    p.2.points.map (fun f => ⟨f, p.1, .points⟩) ++
      p.2.lines.map (fun f => ⟨f, p.1, .lines⟩)

/-- `all_features` of a dataset. -/
def allFeatures {F : Type} (ds : Dataset F) : List (TaggedFeature F) :=
  allFeaturesList ds.tracks

/-- The multiset of tagged features held by a `tracks` mapping. -/
def featuresMS {F : Type} (tracks : List (String × TrackData F)) :
    Multiset (TaggedFeature F) :=
  (allFeaturesList tracks : Multiset (TaggedFeature F))

/-- Number of features held by a `tracks` mapping. -/
def chunkFeatureCount {F : Type} (tracks : List (String × TrackData F)) : ℕ :=
  (allFeaturesList tracks).length

/-- Append one feature to the appropriate `features` array of a track entry
(lines 513-523). -/
def pushFeature {F : Type} (ct : TrackData F) (m : TaggedFeature F) : TrackData F :=
  match m.feature_type with
  | .points => { ct with points := ct.points ++ [m.data] }
  | .lines => { ct with lines := ct.lines ++ [m.data] }

/-- Insert one flattened feature into `chunk_tracks`: if its track type is
already a key the feature is appended to that entry, otherwise a fresh entry
is appended at the end of the dict (Python dict insertion order),
lines 493-523. -/
def addFeature {F : Type} (m : TaggedFeature F) :
    List (String × TrackData F) → List (String × TrackData F)
  | [] => [(m.track_type, pushFeature ⟨[], []⟩ m)]
  | (tt, ct) :: rest =>
    if tt = m.track_type then (tt, pushFeature ct m) :: rest
    else (tt, ct) :: addFeature m rest

/-- Regroup one chunk's flattened features back into a per-track-type
`chunk_tracks` structure (the `for feature_meta in chunk_features` loop). -/
def regroupFeatures {F : Type} (cf : List (TaggedFeature F)) :
    List (String × TrackData F) :=
  cf.foldl (fun acc m => addFeature m acc) []

/-- Contiguous slices `l[0:k], l[k:2k], …` as produced by
`range(0, len(l), k)` slicing, with fuel (`fuel ≥ l.length` in every use). -/
def sliceChunksAux {α : Type} (k : ℕ) : ℕ → List α → List (List α)
  | _, [] => []
  | 0, a :: l => [a :: l]
  | fuel + 1, a :: l =>
    (a :: l.take (k - 1)) :: sliceChunksAux k fuel (l.drop (k - 1))

/-- `[l[i:i+k] for i in range(0, len(l), k)]`. -/
def sliceChunks {α : Type} (k : ℕ) (l : List α) : List (List α) :=
  sliceChunksAux k l.length l

/-- `target_chunks = max(min_chunks, min(max_chunks, int(total_size /
max_chunk_size) + 1))` (lines 409-411). -/
def targetChunks (totalSize maxChunkSize : ℕ) : ℕ :=
  max minChunks (min maxChunks (totalSize / maxChunkSize + 1))

/-- One successfully written chunk artifact: `name` is the `NNN` of
`…_chunk_NNN` (`len(chunks) + 1` at write time), `chunk_id` is
`chunk_info['chunk_id']` (`len(chunks)` at build time), `tracks` its
`chunk_tracks` content. -/
structure ChunkFile (F : Type) where
  name : ℕ
  chunk_id : ℕ
  tracks : List (String × TrackData F)
deriving DecidableEq

/-- The planned chunk contents, in write order: feature-count slices of
`all_features` regrouped per track type (lines 483-536), or — when
`all_features` is empty — slices of the track-type items themselves
(the fallback, lines 443-463). -/
def chunkPlan {F : Type} (totalSize maxChunkSize : ℕ) (ds : Dataset F) :
    List (List (String × TrackData F)) :=
  let target := targetChunks totalSize maxChunkSize
  let afs := allFeatures ds
  if afs.isEmpty then
    sliceChunks (max 1 (ds.tracks.length / target)) ds.tracks
  else
    (sliceChunks (max 1 (afs.length / target)) afs).map regroupFeatures

/-- The chunk write loop: each planned chunk is attempted in order
(`writeOk i` tells whether the `try: save_data_file(…)` of the i-th attempt
succeeds); a successful chunk is appended to `chunks`/`chunk_files` with
filename number `len(chunks) + 1`, a failed one is only logged and skipped. -/
def writeLoop {F : Type} (writeOk : ℕ → Bool) :
    ℕ → List (ChunkFile F) → List (List (String × TrackData F)) → List (ChunkFile F)
  | _, acc, [] => acc
  | i, acc, t :: rest =>
    if writeOk i then
      writeLoop writeOk (i + 1) (acc ++ [⟨acc.length + 1, acc.length, t⟩]) rest
    else
      writeLoop writeOk (i + 1) acc rest

/-- The chunked-mode `data_config.json` content that matters here: the
`chunks` filename list and `total_chunks`. -/
structure ChunkedManifest where
  chunks : List ℕ
  total_chunks : ℕ
deriving DecidableEq

/-- The manifest written after the chunk loop: only produced when at least one
chunk landed (`if chunks:`), listing exactly the successful chunk files. -/
def mkManifest {F : Type} (written : List (ChunkFile F)) : Option ChunkedManifest :=
  if written.isEmpty then none
  else some ⟨written.map (fun c => c.name), written.length⟩

/-- Result of `save_to_data_with_size_limit`: a single artifact holding the
whole dataset (plus a `data_type: single` manifest), a failed single-file
write (empty `file_info`), or the chunked path with its written chunk files
and optional manifest. -/
inductive SaveOutcome (F : Type)
  | single (data : Dataset F)
  | singleFailed
  | chunked (written : List (ChunkFile F)) (manifest : Option ChunkedManifest)
deriving DecidableEq

/-- `True` exactly on the chunked-path outcome. -/
def SaveOutcome.isChunked {F : Type} : SaveOutcome F → Bool
  | .chunked _ _ => true
  | _ => false

/-- The written chunk files of a chunked outcome (`[]` otherwise). -/
def chunkedWritten {F : Type} : SaveOutcome F → List (ChunkFile F)
  | .chunked w _ => w
  | _ => []

/-- The features landing in the written artifacts of an outcome. -/
def outcomeFeatures {F : Type} : SaveOutcome F → Multiset (TaggedFeature F)
  | .single d => (allFeatures d : Multiset (TaggedFeature F))
  | .singleFailed => 0
  | .chunked written _ => (written.map (fun c => featuresMS c.tracks)).sum

/-- `save_to_data_with_size_limit` from the size decision onward (lines
359-599): `should_chunk = enable_chunking and (total_size > max_chunk_size or
len(tracks) >= min_chunks)`; single-file mode when `not should_chunk or
len(tracks) <= 1`, otherwise the chunked path over `chunkPlan`. -/
def save_to_data_with_size_limit {F : Type} (enableChunking singleWriteOk : Bool)
    (writeOk : ℕ → Bool) (totalSize maxChunkSize : ℕ) (ds : Dataset F) :
    SaveOutcome F :=
  let shouldChunk := enableChunking &&
    (decide (maxChunkSize < totalSize) || decide (minChunks ≤ ds.tracks.length))
  if shouldChunk = false ∨ ds.tracks.length ≤ 1 then
    if singleWriteOk then .single ds else .singleFailed
  else
    let written := writeLoop writeOk 0 [] (chunkPlan totalSize maxChunkSize ds)
    .chunked written (mkManifest written)

/-- The elements of `l` sitting at positions (counted from `i`) accepted by
`ok`, in order: the declarative description of which attempted chunks get
written. -/
def selectIdxFrom {α : Type} (ok : ℕ → Bool) : ℕ → List α → List α
  | _, [] => []
  | i, t :: rest =>
    if ok i then t :: selectIdxFrom ok (i + 1) rest
    else selectIdxFrom ok (i + 1) rest

/-- Number a list of chunk contents consecutively: the j-th element (0-based,
after `n` earlier successes) gets filename number `n + j + 1` and chunk id
`n + j`. -/
def numberFrom {F : Type} (n : ℕ) : List (List (String × TrackData F)) → List (ChunkFile F)
  | [] => []
  | t :: rest => ⟨n + 1, n, t⟩ :: numberFrom (n + 1) rest

/-! ## Geodesy, deduplicator and area estimator (lines 58-75, 828-902)

These functions compute with `math.radians`/`sin`/`cos`/`sqrt`/`atan2`,
embedded as the exact real functions.  Python's `int()` truncates toward
zero, embedded as `pytrunc`.  Decisions on real-valued predicates use
classical decidability. -/

section RealModel

open scoped Classical

/-- `math.atan2(y, x)`. -/
noncomputable def atan2 (y x : ℝ) : ℝ :=
  if 0 < x then Real.arctan (y / x)
  else if x < 0 then
    (if 0 ≤ y then Real.arctan (y / x) + Real.pi else Real.arctan (y / x) - Real.pi)
  else if 0 < y then Real.pi / 2
  else if y < 0 then -(Real.pi / 2)
  else 0

/-- `math.radians`: degrees to radians. -/
noncomputable def toRad (x : ℝ) : ℝ := x * Real.pi / 180

/-- `haversine(lat1, lon1, lat2, lon2)` (lines 58-75): great-circle distance
in meters, `R = 6371e3`, `a = sin²(Δlat/2) + cos lat1 · cos lat2 · sin²(Δlon/2)`,
`c = 2·atan2(√a, √(1−a))`, result `R·c`. -/
noncomputable def haversine (lat1 lon1 lat2 lon2 : ℝ) : ℝ :=
  6371000 * (2 * atan2
    (Real.sqrt (Real.sin ((toRad lat2 - toRad lat1) / 2) ^ 2 +
      Real.cos (toRad lat1) * Real.cos (toRad lat2) *
        Real.sin ((toRad lon2 - toRad lon1) / 2) ^ 2))
    (Real.sqrt (1 - (Real.sin ((toRad lat2 - toRad lat1) / 2) ^ 2 +
      Real.cos (toRad lat1) * Real.cos (toRad lat2) *
        Real.sin ((toRad lon2 - toRad lon1) / 2) ^ 2))))

/-- A `(lat, lon)` point as handled by the deduplicator and area estimator. -/
abbrev GeoPoint := ℝ × ℝ

/-- `haversine` on two `(lat, lon)` pairs, first argument order matching the
code's `haversine(lat, lon, existing_lat, existing_lon)` call. -/
noncomputable def havP (p q : GeoPoint) : ℝ := haversine p.1 p.2 q.1 q.2

/-- Python `int()` on a float: truncation toward zero. -/
noncomputable def pytrunc (x : ℝ) : ℤ := if 0 ≤ x then ⌊x⌋ else ⌈x⌉

/-- The dedup grid cell of a point (lines 871-872): grid size is
`min_distance * 1.5`; `grid_lat = int(lat * 111000 / grid_size)`,
`grid_lon = int(lon * 111000 * cos(radians(lat)) / grid_size)`. -/
noncomputable def dedupCell (min_distance : ℝ) (p : GeoPoint) : ℤ × ℤ :=
  (pytrunc (p.1 * 111000 / (min_distance * 1.5)),
    pytrunc (p.2 * 111000 * Real.cos (toRad p.1) / (min_distance * 1.5)))

/-- Cells reachable by the `for dlat in [-1, 0, 1]: for dlon in [-1, 0, 1]`
neighborhood scan: both integer coordinates differ by at most 1. -/
def adjacentCells (c1 c2 : ℤ × ℤ) : Prop :=
  |c1.1 - c2.1| ≤ 1 ∧ |c1.2 - c2.2| ≤ 1

/-- The duplicate test of `remove_duplicates_fast` (lines 874-888): some
already-retained point lies in the 3×3 cell neighborhood of `p` (the grid
dict maps each cell to exactly the retained points whose cell it is) and is
within `min_distance` of `p` by the haversine check. -/
def isDuplicate (min_distance : ℝ) (retained : List GeoPoint) (p : GeoPoint) : Prop :=
  ∃ q ∈ retained,
    adjacentCells (dedupCell min_distance q) (dedupCell min_distance p) ∧
      havP p q ≤ min_distance

/-- The main loop of `remove_duplicates_fast`: `acc` is `unique_points` (and
determines the grid dict); a non-duplicate point is appended and indexed,
a duplicate is dropped. -/
noncomputable def dedupGo (d : ℝ) : List GeoPoint → List GeoPoint → List GeoPoint
  | acc, [] => acc
  | acc, p :: rest =>
    if isDuplicate d acc p then dedupGo d acc rest
    else dedupGo d (acc ++ [p]) rest

/-- `remove_duplicates_fast(points, min_distance)` (lines 854-902). -/
noncomputable def remove_duplicates_fast (points : List GeoPoint) (min_distance : ℝ) :
    List GeoPoint :=
  dedupGo min_distance [] points

/-- The area grid cell of a point (lines 838-845): `lat_degrees_per_grid =
grid_size / 111000`, `lon_degrees_per_grid = grid_size / (111000 ·
cos(radians(lat)))`, cell = truncated quotients. -/
noncomputable def areaCell (grid_size_meters : ℝ) (p : GeoPoint) : ℤ × ℤ :=
  (pytrunc (p.1 / (grid_size_meters / 111000)),
    pytrunc (p.2 / (grid_size_meters / (111000 * Real.cos (toRad p.1)))))

/-- `calculate_grid_area_fast(points, grid_size_meters)` (lines 828-852):
empty input yields `(0, 0)`; otherwise the distinct grid cells are collected
into a set and the area is `|set| · grid_size²`. -/
noncomputable def calculate_grid_area_fast (points : List GeoPoint)
    (grid_size_meters : ℝ) : ℕ × ℝ :=
  if points = [] then (0, 0)
  else
    let cells := (points.map (areaCell grid_size_meters)).toFinset
    (cells.card, (cells.card : ℝ) * grid_size_meters ^ 2)

end RealModel

/-! ## Concrete data used in witnesses and counterexamples -/

/-- A two-track-type dataset with one point feature per type. -/
def exDs2 : Dataset ℕ := ⟨[("road", ⟨[1], []⟩), ("train", ⟨[2], []⟩)]⟩

/-- A two-track-type dataset with three point features in total. -/
def exDs3 : Dataset ℕ := ⟨[("road", ⟨[1, 2], []⟩), ("train", ⟨[3], []⟩)]⟩

/-- A serialized-size assignment (standing for `get_data_size` on a chunk's
data) for a dataset in which every feature serializes to 600000 bytes — e.g.
a LineString with tens of thousands of coordinates.  The partitioner never
compares a chunk's size against the budget, so nothing prevents such a chunk
from exceeding it. -/
def largeFeatureSize (tracks : List (String × TrackData ℕ)) : ℕ :=
  600000 * chunkFeatureCount tracks

/-! ## Theorems

### Partitioner lemmas -/

theorem sliceChunksAux_flatten {α : Type} (k : ℕ) :
    ∀ (fuel : ℕ) (l : List α), (sliceChunksAux k fuel l).flatten = l := by
  intro fuel
  induction fuel with
  | zero => intro l; cases l <;> simp [sliceChunksAux]
  | succ n ih =>
    intro l
    cases l with
    | nil => simp [sliceChunksAux]
    | cons a t => simp [sliceChunksAux, ih, List.take_append_drop]

theorem sliceChunks_flatten {α : Type} (k : ℕ) (l : List α) :
    (sliceChunks k l).flatten = l :=
  sliceChunksAux_flatten k l.length l

theorem length_le_of_mem_sliceChunksAux {α : Type} (k : ℕ) :
    ∀ (fuel : ℕ) (l : List α), l.length ≤ fuel →
      ∀ c ∈ sliceChunksAux k fuel l, c.length ≤ max 1 k := by
  intro fuel
  induction fuel with
  | zero =>
    intro l hl c hc
    cases l with
    | nil => simp [sliceChunksAux] at hc
    | cons a t => simp at hl
  | succ n ih =>
    intro l hl c hc
    cases l with
    | nil => simp [sliceChunksAux] at hc
    | cons a t =>
      simp only [sliceChunksAux, List.mem_cons] at hc
      rcases hc with rfl | hc
      · have h1 := min_le_left (k - 1) t.length
        simp only [List.length_cons, List.length_take]
        omega
      · refine ih (t.drop (k - 1)) ?_ c hc
        simp only [List.length_cons] at hl
        simp only [List.length_drop]
        omega

theorem length_le_of_mem_sliceChunks {α : Type} (k : ℕ) (l : List α)
    (c : List α) (hc : c ∈ sliceChunks k l) : c.length ≤ max 1 k :=
  length_le_of_mem_sliceChunksAux k l.length l le_rfl c hc

theorem allFeaturesList_append {F : Type} (a b : List (String × TrackData F)) :
    allFeaturesList (a ++ b) = allFeaturesList a ++ allFeaturesList b := by
  simp [allFeaturesList]

theorem featuresMS_append {F : Type} (a b : List (String × TrackData F)) :
    featuresMS (a ++ b) = featuresMS a + featuresMS b := by
  simp [featuresMS, allFeaturesList_append, Multiset.coe_add]

theorem featuresMS_cons {F : Type} (x : String × TrackData F)
    (rest : List (String × TrackData F)) :
    featuresMS (x :: rest) = featuresMS [x] + featuresMS rest := by
  rw [show x :: rest = [x] ++ rest from rfl, featuresMS_append]

theorem perm_middle_snoc {γ : Type} (A B : List γ) (x : γ) :
    ((A ++ [x]) ++ B).Perm ((A ++ B) ++ [x]) := by
  simp only [List.append_assoc]
  exact List.Perm.append_left A (List.perm_append_comm)

theorem allFeaturesList_singleton {F : Type} (tt : String) (ct : TrackData F) :
    allFeaturesList [(tt, ct)] =
      ct.points.map (fun f => ⟨f, tt, .points⟩) ++
        ct.lines.map (fun f => ⟨f, tt, .lines⟩) := by
  simp [allFeaturesList]

theorem allFeaturesList_push_perm {F : Type} (tt : String) (ct : TrackData F)
    (m : TaggedFeature F) :
    (allFeaturesList [(tt, pushFeature ct m)]).Perm
      (⟨m.data, tt, m.feature_type⟩ :: allFeaturesList [(tt, ct)]) := by
  rcases m with ⟨d, mtt, ft⟩
  cases ft
  · simp only [allFeaturesList_singleton, pushFeature, List.map_append,
      List.map_cons, List.map_nil]
    exact (perm_middle_snoc _ _ _).trans (List.perm_append_singleton _ _)
  · simp only [allFeaturesList_singleton, pushFeature, List.map_append,
      List.map_cons, List.map_nil]
    rw [← List.append_assoc]
    exact List.perm_append_singleton _ _

theorem featuresMS_push {F : Type} (tt : String) (ct : TrackData F)
    (m : TaggedFeature F) :
    featuresMS [(tt, pushFeature ct m)] =
      featuresMS [(tt, ct)] + {⟨m.data, tt, m.feature_type⟩} := by
  have h := Multiset.coe_eq_coe.mpr (allFeaturesList_push_perm tt ct m)
  show (↑(allFeaturesList [(tt, pushFeature ct m)]) : Multiset (TaggedFeature F)) =
    ↑(allFeaturesList [(tt, ct)]) + {(⟨m.data, tt, m.feature_type⟩ : TaggedFeature F)}
  rw [h, ← Multiset.cons_coe, ← Multiset.singleton_add, add_comm]

theorem featuresMS_addFeature {F : Type} (m : TaggedFeature F)
    (acc : List (String × TrackData F)) :
    featuresMS (addFeature m acc) = featuresMS acc + {m} := by
  induction acc with
  | nil =>
    rcases m with ⟨d, tt, ft⟩
    cases ft <;> simp [featuresMS, addFeature, pushFeature, allFeaturesList]
  | cons hd tl ih =>
    rcases hd with ⟨tt, ct⟩
    simp only [addFeature]
    by_cases h : tt = m.track_type
    · subst h
      rw [if_pos rfl,
        featuresMS_cons (m.track_type, pushFeature ct m) tl,
        featuresMS_push,
        featuresMS_cons (m.track_type, ct) tl]
      have hm : (⟨m.data, m.track_type, m.feature_type⟩ : TaggedFeature F) = m := rfl
      rw [hm]
      abel
    · rw [if_neg h, featuresMS_cons (tt, ct) (addFeature m tl), ih,
        featuresMS_cons (tt, ct) tl]
      abel

theorem featuresMS_foldl_addFeature {F : Type} :
    ∀ (cf : List (TaggedFeature F)) (acc : List (String × TrackData F)),
      featuresMS (cf.foldl (fun a m => addFeature m a) acc) =
        featuresMS acc + (cf : Multiset (TaggedFeature F)) := by
  intro cf
  induction cf with
  | nil => intro acc; simp
  | cons m rest ih =>
    intro acc
    rw [List.foldl_cons, ih, featuresMS_addFeature, ← Multiset.cons_coe,
      ← Multiset.singleton_add]
    abel

theorem featuresMS_regroup {F : Type} (cf : List (TaggedFeature F)) :
    featuresMS (regroupFeatures cf) = (cf : Multiset (TaggedFeature F)) := by
  rw [regroupFeatures, featuresMS_foldl_addFeature]
  simp [featuresMS, allFeaturesList]

theorem chunkFeatureCount_regroup {F : Type} (cf : List (TaggedFeature F)) :
    chunkFeatureCount (regroupFeatures cf) = cf.length := by
  have h := congrArg Multiset.card (featuresMS_regroup cf)
  simpa [featuresMS, chunkFeatureCount, Multiset.coe_card] using h

theorem writeLoop_eq {F : Type} (ok : ℕ → Bool) :
    ∀ (l : List (List (String × TrackData F))) (i : ℕ) (acc : List (ChunkFile F)),
      writeLoop ok i acc l = acc ++ numberFrom acc.length (selectIdxFrom ok i l) := by
  intro l
  induction l with
  | nil => intro i acc; simp [writeLoop, selectIdxFrom, numberFrom]
  | cons t rest ih =>
    intro i acc
    by_cases h : ok i
    · simp only [writeLoop, selectIdxFrom, h, if_true, ih, numberFrom,
        List.length_append, List.length_singleton, List.append_assoc,
        List.singleton_append]
    · simp only [writeLoop, selectIdxFrom, h, if_false, ih, Bool.false_eq_true]

theorem numberFrom_map_tracks {F : Type} :
    ∀ (l : List (List (String × TrackData F))) (n : ℕ),
      (numberFrom n l).map (fun c => c.tracks) = l := by
  intro l
  induction l with
  | nil => intro n; simp [numberFrom]
  | cons t rest ih => intro n; simp [numberFrom, ih]

theorem numberFrom_map_name {F : Type} :
    ∀ (l : List (List (String × TrackData F))) (n : ℕ),
      (numberFrom n l).map (fun c => c.name) = List.range' (n + 1) l.length := by
  intro l
  induction l with
  | nil => intro n; simp [numberFrom]
  | cons t rest ih => intro n; simp [numberFrom, ih, List.range'_succ]

theorem numberFrom_length {F : Type} (l : List (List (String × TrackData F))) (n : ℕ) :
    (numberFrom n l).length = l.length := by
  have h := congrArg List.length (numberFrom_map_tracks l n)
  simpa using h

theorem mem_selectIdxFrom {α : Type} (ok : ℕ → Bool) :
    ∀ (l : List α) (i : ℕ) (x : α), x ∈ selectIdxFrom ok i l → x ∈ l := by
  intro l
  induction l with
  | nil => intro i x hx; simp [selectIdxFrom] at hx
  | cons t rest ih =>
    intro i x hx
    by_cases h : ok i
    · simp only [selectIdxFrom, h, if_true, List.mem_cons] at hx
      rcases hx with rfl | hx
      · exact List.mem_cons_self _ _
      · exact List.mem_cons_of_mem _ (ih (i + 1) x hx)
    · simp only [selectIdxFrom, h, Bool.false_eq_true, if_false] at hx
      exact List.mem_cons_of_mem _ (ih (i + 1) x hx)

theorem selectIdxFrom_all {α : Type} (ok : ℕ → Bool) (h : ∀ i, ok i = true) :
    ∀ (l : List α) (i : ℕ), selectIdxFrom ok i l = l := by
  intro l
  induction l with
  | nil => intro i; simp [selectIdxFrom]
  | cons t rest ih => intro i; simp [selectIdxFrom, h i, ih]

theorem sum_coe_flatten {α : Type} :
    ∀ (ls : List (List α)),
      (ls.map (fun s => Multiset.ofList s)).sum = Multiset.ofList ls.flatten
  | [] => by simp
  | s :: rest => by
    rw [List.map_cons, List.sum_cons, sum_coe_flatten rest, List.flatten_cons,
      Multiset.coe_add]

theorem sum_featuresMS_flatten {F : Type} :
    ∀ (ls : List (List (String × TrackData F))),
      (ls.map featuresMS).sum = featuresMS ls.flatten
  | [] => by simp [featuresMS, allFeaturesList]
  | s :: rest => by
    rw [List.map_cons, List.sum_cons, sum_featuresMS_flatten rest,
      List.flatten_cons, featuresMS_append]

/-! ### C4 — dateline split of `[[179,10],[-179,10]]` -/

/-- C4 counterexample: on the single-crossing segment `[[179,10],[-179,10]]`
the split produces no surviving sub-segment, so `fix_dateline_crossing` falls
back to returning the original segment whole and `parse_gpx_to_geojson` emits
one LineString feature for it — contradicting the claim that no line feature
is emitted for this input. -/
theorem C4_line_feature_emitted :
    lineFeatureSegments [(179, 10), (-179, 10)] ≠ [] := by
  norm_num [lineFeatureSegments, fix_dateline_crossing, fdcLoop]

/-- C4 (amended): for input `[[179,10],[-179,10]]` the dateline split leaves
two 1-point segments, both discarded; the routine therefore returns the
fallback `[coordinates]`, i.e. the original two-point segment, and exactly one
line feature containing the original crossing segment is emitted. -/
theorem C4_split_then_fallback :
    fix_dateline_crossing [(179, 10), (-179, 10)] = [[(179, 10), (-179, 10)]] ∧
      lineFeatureSegments [(179, 10), (-179, 10)] = [[(179, 10), (-179, 10)]] := by
  constructor
  · norm_num [fix_dateline_crossing, fdcLoop]
  · norm_num [lineFeatureSegments, fix_dateline_crossing, fdcLoop]

/-! ### C2 — the written chunks partition the dataset's features -/

/-- C2: when every write succeeds, the features landing in the written
artifacts of `save_to_data_with_size_limit` — the single file, or the union of
all chunks in either chunked mode — are exactly the dataset's features, as a
multiset: every point and line feature of every track type appears in exactly
one chunk, with no duplication and no omission. -/
theorem C2_chunks_partition_features {F : Type} (enableChunking : Bool)
    (writeOk : ℕ → Bool) (totalSize maxChunkSize : ℕ) (ds : Dataset F)
    (hw : ∀ i, writeOk i = true) :
    outcomeFeatures
        (save_to_data_with_size_limit enableChunking true writeOk totalSize
          maxChunkSize ds) =
      Multiset.ofList (allFeatures ds) := by
  unfold save_to_data_with_size_limit
  by_cases hc : (enableChunking && (decide (maxChunkSize < totalSize) ||
      decide (minChunks ≤ ds.tracks.length))) = false ∨ ds.tracks.length ≤ 1
  · rw [if_pos hc, if_pos rfl]
    rfl
  · rw [if_neg hc]
    simp only [outcomeFeatures]
    rw [writeLoop_eq, selectIdxFrom_all writeOk hw]
    simp only [List.nil_append, List.length_nil]
    rw [show (numberFrom 0 (chunkPlan totalSize maxChunkSize ds)).map
          (fun c => featuresMS c.tracks) =
        ((numberFrom 0 (chunkPlan totalSize maxChunkSize ds)).map
          (fun c => c.tracks)).map featuresMS by rw [List.map_map]; rfl,
      numberFrom_map_tracks]
    simp only [chunkPlan]
    split
    · rw [sum_featuresMS_flatten, sliceChunks_flatten]
      rfl
    · rw [List.map_map,
        show featuresMS ∘ regroupFeatures =
          fun s : List (TaggedFeature F) => Multiset.ofList s from
          funext fun s => featuresMS_regroup s,
        sum_coe_flatten, sliceChunks_flatten]

/-- C2 witness at a concrete two-track dataset with all writes succeeding. -/
theorem C2_chunks_partition_features_witness :
    (∀ i : ℕ, (fun _ : ℕ => true) i = true) ∧
      outcomeFeatures
          (save_to_data_with_size_limit true true (fun _ => true) 100 524288
            exDs2) =
        Multiset.ofList (allFeatures exDs2) :=
  ⟨fun _ => rfl,
    C2_chunks_partition_features true (fun _ => true) 100 524288 exDs2
      (fun _ => rfl)⟩

/-! ### C3 — single-file versus chunked routing -/

/-- C3 counterexample: a dataset with two track types whose serialized size
(100 bytes) is far within the 524288-byte budget is still routed to the
chunked path, because `should_chunk` also fires on
`len(tracks) >= min_chunks` — contradicting the claim that the chunked path
is taken only when the size exceeds the budget. -/
theorem C3_small_dataset_still_chunked :
    (save_to_data_with_size_limit true true (fun _ => true) 100 524288
        exDs2).isChunked = true ∧
      100 ≤ 524288 := by
  constructor
  · rfl
  · decide

/-- C3 (amended): the partitioner writes a single artifact iff chunking is
disabled or the dataset has at most one track type; since
`min_chunks = 2`, any dataset with at least two track types takes the chunked
path regardless of its byte size — the size-versus-budget comparison never
decides the mode on its own. -/
theorem C3_chunked_iff_multi_track {F : Type} (enableChunking singleWriteOk : Bool)
    (writeOk : ℕ → Bool) (totalSize maxChunkSize : ℕ) (ds : Dataset F) :
    (save_to_data_with_size_limit enableChunking singleWriteOk writeOk totalSize
        maxChunkSize ds).isChunked = true ↔
      (enableChunking = true ∧ 2 ≤ ds.tracks.length) := by
  unfold save_to_data_with_size_limit
  by_cases hc : (enableChunking && (decide (maxChunkSize < totalSize) ||
      decide (minChunks ≤ ds.tracks.length))) = false ∨ ds.tracks.length ≤ 1
  · rw [if_pos hc]
    have hL : (if singleWriteOk then SaveOutcome.single (F := F) ds
        else SaveOutcome.singleFailed).isChunked = false := by
      cases singleWriteOk <;> rfl
    rw [hL]
    constructor
    · intro h'
      exact absurd h' (by simp)
    · rintro ⟨he, hlen⟩
      exfalso
      rcases hc with hc | hc
      · rw [he] at hc
        simp [minChunks] at hc
        omega
      · omega
  · rw [if_neg hc]
    push_neg at hc
    obtain ⟨hA, hlen⟩ := hc
    have hA' : (enableChunking && (decide (maxChunkSize < totalSize) ||
        decide (minChunks ≤ ds.tracks.length))) = true := by
      cases hb : (enableChunking && (decide (maxChunkSize < totalSize) ||
          decide (minChunks ≤ ds.tracks.length)))
      · exact absurd hb hA
      · rfl
    have he : enableChunking = true := by
      cases enableChunking
      · simp at hA'
      · rfl
    simp only [SaveOutcome.isChunked, he, true_and, true_iff]
    omega

/-! ### C5 — chunk sizes versus the byte budget -/

/-- C5 counterexample: a run through the feature-based chunked mode (the
flattened feature list is nonempty, so the fallback is not taken) in which a
written chunk holds one feature; under a serializer that emits 600000 bytes
per feature (`largeFeatureSize`, e.g. one long LineString) that chunk's
serialized size exceeds the 524288-byte budget — the partitioner slices by
feature count and never compares a chunk's size against the budget. -/
theorem C5_feature_mode_chunk_overflows :
    allFeatures exDs3 ≠ [] ∧
      chunkedWritten
          (save_to_data_with_size_limit true true (fun _ => true) 2000000 524288
            exDs3) =
        [⟨1, 0, [("road", ⟨[1], []⟩)]⟩, ⟨2, 1, [("road", ⟨[2], []⟩)]⟩,
          ⟨3, 2, [("train", ⟨[3], []⟩)]⟩] ∧
      524288 < largeFeatureSize [("road", ⟨[1], []⟩)] := by
  refine ⟨by decide, ?_, by decide⟩
  rfl

/-- C5 (amended): in the feature-based chunked mode every written chunk holds
at most `features_per_chunk = max(1, len(all_features) // target_chunks)`
features; the byte budget itself is not enforced per chunk, so a chunk whose
features serialize large can exceed it. -/
theorem C5_feature_mode_chunk_count_bound {F : Type}
    (enableChunking singleWriteOk : Bool) (writeOk : ℕ → Bool)
    (totalSize maxChunkSize : ℕ) (ds : Dataset F)
    (written : List (ChunkFile F)) (manifest : Option ChunkedManifest)
    (h : save_to_data_with_size_limit enableChunking singleWriteOk writeOk
        totalSize maxChunkSize ds = .chunked written manifest)
    (hne : allFeatures ds ≠ [])
    (c : ChunkFile F) (hc : c ∈ written) :
    chunkFeatureCount c.tracks ≤
      max 1 ((allFeatures ds).length / targetChunks totalSize maxChunkSize) := by
  unfold save_to_data_with_size_limit at h
  by_cases hcc : (enableChunking && (decide (maxChunkSize < totalSize) ||
      decide (minChunks ≤ ds.tracks.length))) = false ∨ ds.tracks.length ≤ 1
  case pos =>
    rw [if_pos hcc] at h
    cases singleWriteOk <;> simp at h
  case neg =>
    rw [if_neg hcc] at h
    injection h with hW hM
    subst hW
    rw [writeLoop_eq, List.nil_append, List.length_nil] at hc
    have htr : c.tracks ∈ selectIdxFrom writeOk 0 (chunkPlan totalSize maxChunkSize ds) := by
      have := List.mem_map_of_mem (fun c : ChunkFile F => c.tracks) hc
      rwa [numberFrom_map_tracks] at this
    have hplan : c.tracks ∈ chunkPlan totalSize maxChunkSize ds :=
      mem_selectIdxFrom writeOk _ 0 _ htr
    rw [chunkPlan, if_neg (by simpa [List.isEmpty_iff] using hne)] at hplan
    obtain ⟨s, hs, hsc⟩ := List.mem_map.mp hplan
    rw [← hsc, chunkFeatureCount_regroup]
    have hlen := length_le_of_mem_sliceChunks _ _ s hs
    have hmax : max 1 (max 1 ((allFeatures ds).length /
        targetChunks totalSize maxChunkSize)) =
        max 1 ((allFeatures ds).length / targetChunks totalSize maxChunkSize) := by
      rw [← max_assoc, max_self]
    rw [hmax] at hlen
    exact hlen

/-- C5 amended witness: a concrete feature-mode run in which the first chunk
holds one feature, within the `features_per_chunk` bound. -/
theorem C5_feature_mode_chunk_count_bound_witness :
    (save_to_data_with_size_limit true true (fun _ => true) 2000000 524288
          exDs3 =
        .chunked
          [⟨1, 0, [("road", ⟨[1], []⟩)]⟩, ⟨2, 1, [("road", ⟨[2], []⟩)]⟩,
            ⟨3, 2, [("train", ⟨[3], []⟩)]⟩]
          (some ⟨[1, 2, 3], 3⟩) ∧
        allFeatures exDs3 ≠ [] ∧
        (⟨1, 0, [("road", ⟨[1], []⟩)]⟩ : ChunkFile ℕ) ∈
          [⟨1, 0, [("road", ⟨[1], []⟩)]⟩, ⟨2, 1, [("road", ⟨[2], []⟩)]⟩,
            (⟨3, 2, [("train", ⟨[3], []⟩)]⟩ : ChunkFile ℕ)]) ∧
      chunkFeatureCount ([("road", (⟨[1], []⟩ : TrackData ℕ))]) ≤
        max 1 ((allFeatures exDs3).length / targetChunks 2000000 524288) :=
  ⟨⟨rfl, by decide, List.mem_cons_self _ _⟩,
    C5_feature_mode_chunk_count_bound true true (fun _ => true) 2000000 524288
      exDs3 _ _ rfl (by decide) _ (List.mem_cons_self _ _)⟩

/-! ### C9 — write failures and the manifest -/

/-- C9: whenever the partitioner takes the chunked path, the written chunk
files are exactly the planned chunks at the attempt indices whose write
succeeded (failed attempts are skipped and the loop continues), numbered
consecutively from 1; the manifest, when present, lists exactly those files
and counts them in `total_chunks`, and it is absent only when no chunk was
written. -/
theorem C9_manifest_reflects_written_chunks {F : Type}
    (enableChunking singleWriteOk : Bool) (writeOk : ℕ → Bool)
    (totalSize maxChunkSize : ℕ) (ds : Dataset F)
    (written : List (ChunkFile F)) (manifest : Option ChunkedManifest)
    (h : save_to_data_with_size_limit enableChunking singleWriteOk writeOk
        totalSize maxChunkSize ds = .chunked written manifest) :
    written =
        numberFrom 0 (selectIdxFrom writeOk 0 (chunkPlan totalSize maxChunkSize ds)) ∧
      written.map (fun c => c.name) = List.range' 1 written.length ∧
      (∀ m, manifest = some m →
        m.chunks = written.map (fun c => c.name) ∧
          m.total_chunks = written.length ∧ written ≠ []) ∧
      (manifest = none → written = []) := by
  unfold save_to_data_with_size_limit at h
  by_cases hcc : (enableChunking && (decide (maxChunkSize < totalSize) ||
      decide (minChunks ≤ ds.tracks.length))) = false ∨ ds.tracks.length ≤ 1
  case pos =>
    rw [if_pos hcc] at h
    cases singleWriteOk <;> simp at h
  case neg =>
    rw [if_neg hcc] at h
    injection h with hW hM
    subst hW
    rw [writeLoop_eq, List.nil_append, List.length_nil] at hM ⊢
    refine ⟨rfl, ?_, ?_, ?_⟩
    · rw [numberFrom_map_name, numberFrom_length]
    · intro m hm
      by_cases he :
        (numberFrom 0 (selectIdxFrom writeOk 0 (chunkPlan totalSize maxChunkSize ds))
          : List (ChunkFile F)).isEmpty
      · rw [← hM, mkManifest, if_pos he] at hm
        simp at hm
      · rw [← hM, mkManifest, if_neg he] at hm
        obtain rfl : m = ⟨_, _⟩ := (Option.some_injective _ hm).symm
        exact ⟨rfl, rfl, by simpa [List.isEmpty_iff] using he⟩
    · intro hm
      by_cases he :
        (numberFrom 0 (selectIdxFrom writeOk 0 (chunkPlan totalSize maxChunkSize ds))
          : List (ChunkFile F)).isEmpty
      · simpa [List.isEmpty_iff] using he
      · rw [← hM, mkManifest, if_neg he] at hm
        simp at hm

/-- C9 witness: a concrete chunked run whose second write attempt fails; the
failed chunk is omitted, the two surviving chunks are renumbered 1 and 2, and
the manifest lists exactly them with `total_chunks = 2`. -/
theorem C9_manifest_reflects_written_chunks_witness :
    (save_to_data_with_size_limit true true (fun i => decide (i ≠ 1)) 2000000
          524288 exDs3 =
        .chunked
          [⟨1, 0, [("road", ⟨[1], []⟩)]⟩, ⟨2, 1, [("train", ⟨[3], []⟩)]⟩]
          (some ⟨[1, 2], 2⟩)) ∧
      ([⟨1, 0, [("road", ⟨[1], []⟩)]⟩,
          (⟨2, 1, [("train", ⟨[3], []⟩)]⟩ : ChunkFile ℕ)] =
          numberFrom 0 (selectIdxFrom (fun i => decide (i ≠ 1)) 0
            (chunkPlan 2000000 524288 exDs3)) ∧
        [⟨1, 0, [("road", ⟨[1], []⟩)]⟩,
            (⟨2, 1, [("train", ⟨[3], []⟩)]⟩ : ChunkFile ℕ)].map (fun c => c.name) =
          List.range' 1 [⟨1, 0, [("road", ⟨[1], []⟩)]⟩,
            (⟨2, 1, [("train", ⟨[3], []⟩)]⟩ : ChunkFile ℕ)].length ∧
        (∀ m, (some (⟨[1, 2], 2⟩ : ChunkedManifest)) = some m →
          m.chunks = [⟨1, 0, [("road", ⟨[1], []⟩)]⟩,
              (⟨2, 1, [("train", ⟨[3], []⟩)]⟩ : ChunkFile ℕ)].map (fun c => c.name) ∧
            m.total_chunks = [⟨1, 0, [("road", ⟨[1], []⟩)]⟩,
              (⟨2, 1, [("train", ⟨[3], []⟩)]⟩ : ChunkFile ℕ)].length ∧
            [⟨1, 0, [("road", ⟨[1], []⟩)]⟩,
              (⟨2, 1, [("train", ⟨[3], []⟩)]⟩ : ChunkFile ℕ)] ≠ []) ∧
        ((some (⟨[1, 2], 2⟩ : ChunkedManifest)) = none →
          [⟨1, 0, [("road", ⟨[1], []⟩)]⟩,
            (⟨2, 1, [("train", ⟨[3], []⟩)]⟩ : ChunkFile ℕ)] = [])) :=
  ⟨rfl,
    C9_manifest_reflects_written_chunks true true (fun i => decide (i ≠ 1))
      2000000 524288 exDs3 _ _ rfl⟩

/-! ### Deduplicator lemmas -/

theorem not_isDuplicate_nil (d : ℝ) (p : GeoPoint) : ¬ isDuplicate d [] p := by
  simp [isDuplicate]

theorem isDuplicate_mono (d : ℝ) (x : GeoPoint) (acc : List GeoPoint)
    (p : GeoPoint) (h : isDuplicate d acc p) : isDuplicate d (x :: acc) p := by
  obtain ⟨q, hq, hrest⟩ := h
  exact ⟨q, List.mem_cons_of_mem x hq, hrest⟩

theorem dedupGo_append (d : ℝ) :
    ∀ (ps acc : List GeoPoint),
      ∃ t, dedupGo d acc ps = acc ++ t ∧ t.Sublist ps := by
  intro ps
  induction ps with
  | nil => intro acc; exact ⟨[], by simp [dedupGo], List.nil_sublist []⟩
  | cons p rest ih =>
    intro acc
    by_cases h : isDuplicate d acc p
    · obtain ⟨t, ht, hs⟩ := ih acc
      refine ⟨t, ?_, hs.cons p⟩
      simp only [dedupGo, if_pos h]
      exact ht
    · obtain ⟨t, ht, hs⟩ := ih (acc ++ [p])
      refine ⟨p :: t, ?_, hs.cons₂ p⟩
      simp only [dedupGo, if_neg h]
      rw [ht, List.append_assoc]
      rfl

theorem ndp_snoc (d : ℝ) (acc : List GeoPoint) (p : GeoPoint)
    (hacc : ∀ a q b, acc = a ++ q :: b → ¬ isDuplicate d a q)
    (hp : ¬ isDuplicate d acc p) :
    ∀ a q b, acc ++ [p] = a ++ q :: b → ¬ isDuplicate d a q := by
  intro a q b h
  rcases List.eq_nil_or_concat b with rfl | ⟨b', x, rfl⟩
  · obtain ⟨ha, hq⟩ := List.append_inj' h rfl
    obtain rfl : p = q := by simpa using hq
    rw [← ha]
    exact hp
  · rw [List.concat_eq_append] at h
    rw [show a ++ q :: (b' ++ [x]) = (a ++ q :: b') ++ [x] by simp] at h
    obtain ⟨h1, -⟩ := List.append_inj' h rfl
    exact hacc a q b' h1

theorem dedupGo_ndp (d : ℝ) :
    ∀ (ps acc : List GeoPoint),
      (∀ a q b, acc = a ++ q :: b → ¬ isDuplicate d a q) →
      ∀ a q b, dedupGo d acc ps = a ++ q :: b → ¬ isDuplicate d a q := by
  intro ps
  induction ps with
  | nil =>
    intro acc hacc
    simpa [dedupGo] using hacc
  | cons p rest ih =>
    intro acc hacc
    by_cases h : isDuplicate d acc p
    · simpa [dedupGo, if_pos h] using ih acc hacc
    · simpa [dedupGo, if_neg h] using ih (acc ++ [p]) (ndp_snoc d acc p hacc h)

theorem dedupGo_of_ndp (d : ℝ) :
    ∀ (rest acc : List GeoPoint),
      (∀ a q b, rest = a ++ q :: b → ¬ isDuplicate d (acc ++ a) q) →
      dedupGo d acc rest = acc ++ rest := by
  intro rest
  induction rest with
  | nil => intro acc _; simp [dedupGo]
  | cons p rest' ih =>
    intro acc h
    have hp : ¬ isDuplicate d acc p := by
      have := h [] p rest' rfl
      simpa using this
    simp only [dedupGo, if_neg hp]
    rw [ih (acc ++ [p]) ?_]
    · simp
    · intro a q b hab
      have := h (p :: a) q b (by rw [hab]; rfl)
      simpa [List.append_assoc] using this

theorem pairwise_of_ndp (d : ℝ) :
    ∀ (l : List GeoPoint),
      (∀ a q b, l = a ++ q :: b → ¬ isDuplicate d a q) →
      l.Pairwise (fun p q =>
        adjacentCells (dedupCell d p) (dedupCell d q) → d < havP q p) := by
  intro l
  induction l with
  | nil => intro _; exact List.Pairwise.nil
  | cons x rest ih =>
    intro h
    refine List.Pairwise.cons ?_ (ih ?_)
    · intro y hy hadj
      obtain ⟨s, t, rfl⟩ := List.append_of_mem hy
      have hnd := h (x :: s) y t (by simp)
      by_contra hle
      push_neg at hle
      exact hnd ⟨x, List.mem_cons_self x s, hadj, hle⟩
    · intro a q b hab
      have hnd := h (x :: a) q b (by rw [hab]; rfl)
      intro hdup
      exact hnd (isDuplicate_mono d x a q hdup)

theorem dedupGo_dropped (d : ℝ) :
    ∀ (ps acc : List GeoPoint), ∀ p ∈ ps, p ∉ dedupGo d acc ps →
      ∃ q ∈ dedupGo d acc ps, havP p q ≤ d := by
  intro ps
  induction ps with
  | nil => intro acc p hp; simp at hp
  | cons x rest ih =>
    intro acc p hp hnotin
    by_cases h : isDuplicate d acc x
    · simp only [dedupGo, if_pos h] at hnotin ⊢
      rcases List.mem_cons.mp hp with rfl | hp'
      · obtain ⟨q, hq, -, hd⟩ := h
        obtain ⟨t, ht, -⟩ := dedupGo_append d rest acc
        exact ⟨q, by rw [ht]; exact List.mem_append_left t hq, hd⟩
      · exact ih acc p hp' hnotin
    · simp only [dedupGo, if_neg h] at hnotin ⊢
      rcases List.mem_cons.mp hp with rfl | hp'
      · exfalso
        obtain ⟨t, ht, -⟩ := dedupGo_append d rest (acc ++ [p])
        exact hnotin (by rw [ht]; exact List.mem_append_left t (by simp))
      · exact ih (acc ++ [x]) p hp' hnotin

/-! ### Concrete geodesy evaluations -/

theorem atan2_pos_x (y x : ℝ) (hx : 0 < x) : atan2 y x = Real.arctan (y / x) := by
  rw [atan2, if_pos hx]

theorem atan2_zero_one : atan2 0 1 = 0 := by
  rw [atan2_pos_x 0 1 one_pos]
  simp

theorem haversine_comm (lat1 lon1 lat2 lon2 : ℝ) :
    haversine lat1 lon1 lat2 lon2 = haversine lat2 lon2 lat1 lon1 := by
  have key : ∀ x y : ℝ, Real.sin ((x - y) / 2) ^ 2 = Real.sin ((y - x) / 2) ^ 2 := by
    intro x y
    rw [show (x - y) / 2 = -((y - x) / 2) by ring, Real.sin_neg]
    ring
  unfold haversine
  rw [key (toRad lat2) (toRad lat1), key (toRad lon2) (toRad lon1),
    mul_comm (Real.cos (toRad lat1)) (Real.cos (toRad lat2))]

theorem havP_comm (p q : GeoPoint) : havP p q = havP q p :=
  haversine_comm p.1 p.2 q.1 q.2

theorem adjacentCells_comm (c1 c2 : ℤ × ℤ) (h : adjacentCells c1 c2) :
    adjacentCells c2 c1 :=
  ⟨by rw [abs_sub_comm]; exact h.1, by rw [abs_sub_comm]; exact h.2⟩

theorem haversine_same_lon (lat1 lat2 lon : ℝ)
    (h : |toRad lat2 - toRad lat1| < Real.pi) :
    haversine lat1 lon lat2 lon = 6371000 * |toRad lat2 - toRad lat1| := by
  have h2 : |(toRad lat2 - toRad lat1) / 2| < Real.pi / 2 := by
    rw [abs_div, abs_two]
    linarith
  set t := (toRad lat2 - toRad lat1) / 2 with htdef
  have hD : toRad lat2 - toRad lat1 = 2 * t := by rw [htdef]; ring
  have hb := abs_lt.mp h2
  have hcos : 0 < Real.cos t := Real.cos_pos_of_mem_Ioo ⟨hb.1, hb.2⟩
  have hsin_abs : |Real.sin t| = Real.sin |t| := by
    rcases le_or_lt 0 t with h0 | h0
    · rw [abs_of_nonneg h0,
        abs_of_nonneg (Real.sin_nonneg_of_nonneg_of_le_pi h0
          (by linarith [Real.pi_pos]))]
    · rw [abs_of_neg h0, show Real.sin t = -Real.sin (-t) by
        rw [Real.sin_neg]; ring, abs_neg,
        abs_of_nonneg (Real.sin_nonneg_of_nonneg_of_le_pi (by linarith)
          (by linarith [Real.pi_pos]))]
  unfold haversine
  rw [sub_self, show (0 : ℝ) / 2 = 0 by norm_num, Real.sin_zero]
  simp only [ne_eq, OfNat.ofNat_ne_zero, not_false_eq_true, zero_pow,
    mul_zero, add_zero]
  rw [show (1 : ℝ) - Real.sin t ^ 2 = Real.cos t ^ 2 by
      nlinarith [Real.sin_sq_add_cos_sq t],
    Real.sqrt_sq_eq_abs, Real.sqrt_sq_eq_abs, abs_of_pos hcos, hsin_abs,
    atan2_pos_x _ _ hcos,
    show Real.cos t = Real.cos |t| from (Real.cos_abs t).symm,
    ← Real.tan_eq_sin_div_cos,
    Real.arctan_tan (by linarith [abs_nonneg t, Real.pi_pos]) h2,
    hD, abs_mul, abs_two]

theorem haversine_antimeridian : haversine 0 (-180) 0 180 = 0 := by
  have h0 : toRad 0 = 0 := by unfold toRad; ring
  have h1 : toRad 180 - toRad (-180) = 2 * Real.pi := by unfold toRad; ring
  unfold haversine
  rw [h0, h1, sub_self, show (0 : ℝ) / 2 = 0 by norm_num,
    show (2 * Real.pi) / 2 = Real.pi by ring, Real.sin_zero, Real.sin_pi]
  norm_num [Real.sqrt_zero, Real.sqrt_one, atan2_zero_one]

theorem hav_0001_le : haversine 0.0001 0 0 0 ≤ 50 := by
  have h1 : toRad 0 - toRad 0.0001 = -(Real.pi / 1800000) := by
    unfold toRad; ring
  have h : |toRad 0 - toRad 0.0001| < Real.pi := by
    rw [h1, abs_neg, abs_of_pos (by positivity)]
    linarith [Real.pi_pos]
  rw [haversine_same_lon 0.0001 0 0 h, h1, abs_neg,
    abs_of_pos (by positivity)]
  linarith [Real.pi_lt_315]

theorem hav_001_gt : 50 < haversine 0.001 0 0 0 := by
  have h1 : toRad 0 - toRad 0.001 = -(Real.pi / 180000) := by
    unfold toRad; ring
  have h : |toRad 0 - toRad 0.001| < Real.pi := by
    rw [h1, abs_neg, abs_of_pos (by positivity)]
    linarith [Real.pi_pos]
  rw [haversine_same_lon 0.001 0 0 h, h1, abs_neg,
    abs_of_pos (by positivity)]
  linarith [Real.pi_gt_three]

theorem pytrunc_intCast (n : ℤ) : pytrunc (n : ℝ) = n := by
  unfold pytrunc
  split
  · exact Int.floor_intCast n
  · exact Int.ceil_intCast n

theorem pytrunc_nonneg_eq (x : ℝ) (n : ℤ) (h0 : 0 ≤ x) (h1 : (n : ℝ) ≤ x)
    (h2 : x < n + 1) : pytrunc x = n := by
  unfold pytrunc
  rw [if_pos h0, Int.floor_eq_iff]
  · exact ⟨h1, h2⟩

theorem dedupCell_origin : dedupCell 50 ((0 : ℝ), (0 : ℝ)) = (0, 0) := by
  unfold dedupCell
  norm_num
  rw [show (0 : ℝ) = ((0 : ℤ) : ℝ) by norm_num, pytrunc_intCast]

theorem dedupCell_neg180 : dedupCell 50 ((0 : ℝ), (-180 : ℝ)) = (0, -266400) := by
  have h0 : toRad 0 = 0 := by unfold toRad; ring
  unfold dedupCell
  rw [h0, Real.cos_zero]
  norm_num
  constructor
  · rw [show (0 : ℝ) = ((0 : ℤ) : ℝ) by norm_num, pytrunc_intCast]
  · rw [show (-266400 : ℝ) = ((-266400 : ℤ) : ℝ) by norm_num, pytrunc_intCast]

theorem dedupCell_pos180 : dedupCell 50 ((0 : ℝ), (180 : ℝ)) = (0, 266400) := by
  have h0 : toRad 0 = 0 := by unfold toRad; ring
  unfold dedupCell
  rw [h0, Real.cos_zero]
  norm_num
  constructor
  · rw [show (0 : ℝ) = ((0 : ℤ) : ℝ) by norm_num, pytrunc_intCast]
  · rw [show (266400 : ℝ) = ((266400 : ℤ) : ℝ) by norm_num, pytrunc_intCast]

theorem dedupCell_0001 : dedupCell 50 ((0.0001 : ℝ), (0 : ℝ)) = (0, 0) := by
  unfold dedupCell
  norm_num
  constructor
  · exact pytrunc_nonneg_eq _ 0 (by norm_num) (by norm_num) (by norm_num)
  · rw [show (0 : ℝ) = ((0 : ℤ) : ℝ) by norm_num, pytrunc_intCast]

theorem dedupCell_001 : dedupCell 50 ((0.001 : ℝ), (0 : ℝ)) = (1, 0) := by
  unfold dedupCell
  norm_num
  constructor
  · exact pytrunc_nonneg_eq _ 1 (by norm_num) (by norm_num) (by norm_num)
  · rw [show (0 : ℝ) = ((0 : ℤ) : ℝ) by norm_num, pytrunc_intCast]

theorem rdf_antimeridian :
    remove_duplicates_fast [((0 : ℝ), (-180 : ℝ)), ((0 : ℝ), (180 : ℝ))] 50 =
      [((0 : ℝ), (-180 : ℝ)), ((0 : ℝ), (180 : ℝ))] := by
  have h1 : ¬ isDuplicate 50 [] ((0 : ℝ), (-180 : ℝ)) := not_isDuplicate_nil _ _
  have h2 : ¬ isDuplicate 50 [((0 : ℝ), (-180 : ℝ))] ((0 : ℝ), (180 : ℝ)) := by
    rintro ⟨q, hq, hadj, -⟩
    rw [List.mem_singleton] at hq
    subst hq
    rw [dedupCell_neg180, dedupCell_pos180] at hadj
    have := hadj.2
    norm_num at this
  unfold remove_duplicates_fast
  simp only [dedupGo, List.nil_append, List.singleton_append, if_neg h1,
    if_neg h2]

theorem rdf_two_close :
    remove_duplicates_fast [((0 : ℝ), (0 : ℝ)), ((0.0001 : ℝ), (0 : ℝ))] 50 =
      [((0 : ℝ), (0 : ℝ))] := by
  have h1 : ¬ isDuplicate 50 [] ((0 : ℝ), (0 : ℝ)) := not_isDuplicate_nil _ _
  have h2 : isDuplicate 50 [((0 : ℝ), (0 : ℝ))] ((0.0001 : ℝ), (0 : ℝ)) := by
    refine ⟨((0 : ℝ), (0 : ℝ)), List.mem_singleton_self _, ?_, ?_⟩
    · rw [dedupCell_origin, dedupCell_0001]
      exact ⟨by norm_num, by norm_num⟩
    · exact hav_0001_le
  unfold remove_duplicates_fast
  simp only [dedupGo, List.nil_append, if_neg h1, if_pos h2]

theorem rdf_two_far :
    remove_duplicates_fast [((0 : ℝ), (0 : ℝ)), ((0.001 : ℝ), (0 : ℝ))] 50 =
      [((0 : ℝ), (0 : ℝ)), ((0.001 : ℝ), (0 : ℝ))] := by
  have h1 : ¬ isDuplicate 50 [] ((0 : ℝ), (0 : ℝ)) := not_isDuplicate_nil _ _
  have h2 : ¬ isDuplicate 50 [((0 : ℝ), (0 : ℝ))] ((0.001 : ℝ), (0 : ℝ)) := by
    rintro ⟨q, hq, -, hle⟩
    rw [List.mem_singleton] at hq
    subst hq
    have : haversine 0.001 0 0 0 ≤ 50 := hle
    linarith [hav_001_gt]
  unfold remove_duplicates_fast
  simp only [dedupGo, List.nil_append, List.singleton_append, if_neg h1,
    if_neg h2]

/-! ### C1 — pairwise separation of the output -/

/-- C1 counterexample: on input `[(0, -180), (0, 180)]` with threshold 50 the
deduplicator retains both points — they fall in far-apart longitude grid
cells, so the 3×3 neighborhood scan never compares them — yet their haversine
distance is 0 (they name the same antimeridian location), contradicting the
claim that no two distinct output points are within the threshold. -/
theorem C1_close_pair_in_output :
    ((0 : ℝ), (-180 : ℝ)) ∈
        remove_duplicates_fast [((0 : ℝ), (-180 : ℝ)), ((0 : ℝ), (180 : ℝ))] 50 ∧
      ((0 : ℝ), (180 : ℝ)) ∈
        remove_duplicates_fast [((0 : ℝ), (-180 : ℝ)), ((0 : ℝ), (180 : ℝ))] 50 ∧
      ((0 : ℝ), (-180 : ℝ)) ≠ ((0 : ℝ), (180 : ℝ)) ∧
      havP ((0 : ℝ), (-180 : ℝ)) ((0 : ℝ), (180 : ℝ)) ≤ 50 := by
  refine ⟨?_, ?_, ?_, ?_⟩
  · rw [rdf_antimeridian]; simp
  · rw [rdf_antimeridian]; simp
  · intro h
    rw [Prod.mk.injEq] at h
    norm_num at h
  · show haversine 0 (-180) 0 180 ≤ 50
    rw [haversine_antimeridian]
    norm_num

/-- C1 (amended): any two distinct output points whose grid cells lie within
each other's 3×3 neighborhood are more than `min_distance` apart; only pairs
in non-adjacent cells (e.g. across the antimeridian, where the
latitude-scaled longitude index jumps) can be within the threshold. -/
theorem C1_adjacent_cells_separated (P : List GeoPoint) (d : ℝ) (p q : GeoPoint)
    (hp : p ∈ remove_duplicates_fast P d)
    (hq : q ∈ remove_duplicates_fast P d) (hpq : p ≠ q)
    (hadj : adjacentCells (dedupCell d p) (dedupCell d q)) : d < havP p q := by
  have h0 : ∀ a r b, ([] : List GeoPoint) = a ++ r :: b → ¬ isDuplicate d a r := by
    intro a r b h
    rcases List.append_eq_nil.mp h.symm with ⟨-, h2⟩
    exact absurd h2 (List.cons_ne_nil r b)
  have hnd := dedupGo_ndp d P [] h0
  have hpw := pairwise_of_ndp d (remove_duplicates_fast P d) hnd
  have hS : (remove_duplicates_fast P d).Pairwise (fun a b =>
      adjacentCells (dedupCell d a) (dedupCell d b) → d < havP a b) := by
    refine hpw.imp ?_
    intro a b hab hadj'
    rw [havP_comm]
    exact hab hadj'
  have hsym : Symmetric (fun a b : GeoPoint =>
      adjacentCells (dedupCell d a) (dedupCell d b) → d < havP a b) := by
    intro a b hab hadj'
    rw [havP_comm]
    exact hab (adjacentCells_comm _ _ hadj')
  exact hS.forall hsym hp hq hpq hadj

/-- C1 amended witness: the points `(0, 0)` and `(0.001, 0)` (about 111 m
apart) land in vertically adjacent cells, both survive deduplication at
threshold 50, and their distance indeed exceeds 50. -/
theorem C1_adjacent_cells_separated_witness :
    (((0 : ℝ), (0 : ℝ)) ∈
        remove_duplicates_fast [((0 : ℝ), (0 : ℝ)), ((0.001 : ℝ), (0 : ℝ))] 50 ∧
      ((0.001 : ℝ), (0 : ℝ)) ∈
        remove_duplicates_fast [((0 : ℝ), (0 : ℝ)), ((0.001 : ℝ), (0 : ℝ))] 50 ∧
      ((0 : ℝ), (0 : ℝ)) ≠ ((0.001 : ℝ), (0 : ℝ)) ∧
      adjacentCells (dedupCell 50 ((0 : ℝ), (0 : ℝ)))
        (dedupCell 50 ((0.001 : ℝ), (0 : ℝ)))) ∧
      50 < havP ((0 : ℝ), (0 : ℝ)) ((0.001 : ℝ), (0 : ℝ)) := by
  have hm1 : ((0 : ℝ), (0 : ℝ)) ∈
      remove_duplicates_fast [((0 : ℝ), (0 : ℝ)), ((0.001 : ℝ), (0 : ℝ))] 50 := by
    rw [rdf_two_far]; simp
  have hm2 : ((0.001 : ℝ), (0 : ℝ)) ∈
      remove_duplicates_fast [((0 : ℝ), (0 : ℝ)), ((0.001 : ℝ), (0 : ℝ))] 50 := by
    rw [rdf_two_far]; simp
  have hne : ((0 : ℝ), (0 : ℝ)) ≠ ((0.001 : ℝ), (0 : ℝ)) := by
    intro h
    rw [Prod.mk.injEq] at h
    norm_num at h
  have hadj : adjacentCells (dedupCell 50 ((0 : ℝ), (0 : ℝ)))
      (dedupCell 50 ((0.001 : ℝ), (0 : ℝ))) := by
    rw [dedupCell_origin, dedupCell_001]
    exact ⟨by norm_num, by norm_num⟩
  exact ⟨⟨hm1, hm2, hne, hadj⟩,
    C1_adjacent_cells_separated _ 50 _ _ hm1 hm2 hne hadj⟩

/-! ### C6 — idempotence of the deduplicator -/

/-- C6: `remove_duplicates_fast` is idempotent — each retained point was
checked, at the moment of its retention, against exactly the points that
precede it in the output, so a second pass retains every output point. -/
theorem C6_dedup_idempotent (P : List GeoPoint) (d : ℝ) :
    remove_duplicates_fast (remove_duplicates_fast P d) d =
      remove_duplicates_fast P d := by
  unfold remove_duplicates_fast
  have h0 : ∀ a q b, ([] : List GeoPoint) = a ++ q :: b → ¬ isDuplicate d a q := by
    intro a q b h
    rcases List.append_eq_nil.mp h.symm with ⟨-, h2⟩
    exact absurd h2 (List.cons_ne_nil q b)
  have hnd := dedupGo_ndp d P [] h0
  have := dedupGo_of_ndp d (dedupGo d [] P) []
    (by intro a q b h; simpa using hnd a q b h)
  simpa using this

/-! ### C7 — every dropped point has a nearby retained point -/

/-- C7: a point of the input that does not survive deduplication was dropped
because some already-retained point in its 3×3 cell neighborhood was within
`min_distance` of it; retained points are never removed, so that point is in
the final output within distance `d`. -/
theorem C7_dropped_has_near_retained (P : List GeoPoint) (d : ℝ) (p : GeoPoint)
    (hp : p ∈ P) (hdrop : p ∉ remove_duplicates_fast P d) :
    ∃ q ∈ remove_duplicates_fast P d, havP p q ≤ d :=
  dedupGo_dropped d P [] p hp hdrop

/-- C7 witness: `(0.0001, 0)` (about 11 m from the origin) is dropped from
`[(0, 0), (0.0001, 0)]` at threshold 50, and the retained `(0, 0)` is within
50 m of it. -/
theorem C7_dropped_has_near_retained_witness :
    (((0.0001 : ℝ), (0 : ℝ)) ∈ [((0 : ℝ), (0 : ℝ)), ((0.0001 : ℝ), (0 : ℝ))] ∧
      ((0.0001 : ℝ), (0 : ℝ)) ∉
        remove_duplicates_fast [((0 : ℝ), (0 : ℝ)), ((0.0001 : ℝ), (0 : ℝ))] 50) ∧
      ∃ q ∈ remove_duplicates_fast
          [((0 : ℝ), (0 : ℝ)), ((0.0001 : ℝ), (0 : ℝ))] 50,
        havP ((0.0001 : ℝ), (0 : ℝ)) q ≤ 50 := by
  have hmem : ((0.0001 : ℝ), (0 : ℝ)) ∈
      [((0 : ℝ), (0 : ℝ)), ((0.0001 : ℝ), (0 : ℝ))] := by simp
  have hnot : ((0.0001 : ℝ), (0 : ℝ)) ∉
      remove_duplicates_fast [((0 : ℝ), (0 : ℝ)), ((0.0001 : ℝ), (0 : ℝ))] 50 := by
    rw [rdf_two_close]
    intro h
    rw [List.mem_singleton, Prod.mk.injEq] at h
    norm_num at h
  exact ⟨⟨hmem, hnot⟩,
    C7_dropped_has_near_retained _ 50 _ hmem hnot⟩

/-! ### C10 — the output is a subsequence containing the first point -/

/-- C10: for a non-empty input the deduplicator's output is a subsequence of
the input (each retained point is an input point, in original order) and its
first element is the input's first point (which is never a duplicate against
the initially empty grid). -/
theorem C10_output_sublist_and_first (P : List GeoPoint) (d : ℝ) (h : P ≠ []) :
    (remove_duplicates_fast P d).Sublist P ∧
      (remove_duplicates_fast P d).head? = P.head? := by
  constructor
  · obtain ⟨t, ht, hs⟩ := dedupGo_append d P []
    rw [remove_duplicates_fast, ht]
    simpa using hs
  · cases P with
    | nil => exact absurd rfl h
    | cons p rest =>
      rw [remove_duplicates_fast]
      simp only [dedupGo, if_neg (not_isDuplicate_nil d p)]
      obtain ⟨t, ht, -⟩ := dedupGo_append d rest ([] ++ [p])
      rw [ht]
      simp

/-- C10 witness at the one-point input `[(0, 0)]` with threshold 50. -/
theorem C10_output_sublist_and_first_witness :
    ([((0:ℝ), (0:ℝ))] ≠ ([] : List GeoPoint)) ∧
      ((remove_duplicates_fast [((0:ℝ), (0:ℝ))] 50).Sublist [((0:ℝ), (0:ℝ))] ∧
        (remove_duplicates_fast [((0:ℝ), (0:ℝ))] 50).head? =
          [((0:ℝ), (0:ℝ))].head?) :=
  ⟨by simp, C10_output_sublist_and_first [((0:ℝ), (0:ℝ))] 50 (by simp)⟩

/-! ### C8 — grid area estimator -/

/-- C8: `calculate_grid_area_fast` returns the number of distinct grid cells
the input points map to, paired with that count times `grid_size_meters²`,
and returns `(0, 0)` on the empty input rather than failing. -/
theorem C8_area_counts_distinct_cells (points : List GeoPoint)
    (grid_size_meters : ℝ) :
    calculate_grid_area_fast points grid_size_meters =
        ((points.map (areaCell grid_size_meters)).dedup.length,
          ((points.map (areaCell grid_size_meters)).dedup.length : ℝ) *
            grid_size_meters ^ 2) ∧
      calculate_grid_area_fast [] grid_size_meters = (0, 0) := by
  constructor
  · by_cases h : points = []
    · subst h
      simp [calculate_grid_area_fast]
    · rw [calculate_grid_area_fast, if_neg h]
      simp only [List.card_toFinset]
  · simp [calculate_grid_area_fast]

end ExploreWorld
